import Mathlib

/-!
Shallow embedding of partfs (src/partfs.c): a FUSE file system exposing the
partitions of a disk image as virtual files `part_<N>`.  The embedding models
the path decoder `__partfs_parse_path` (built on `sscanf("/part_%zu%n")`),
the metadata synthesizer `__partfs_stat`, `partfs_getattr`, `partfs_readdir`,
`partfs_open`, and the I/O translator `partfs_lseek` / `partfs_read` /
`partfs_write`.  The backing store is a total byte map indexed by absolute
offset; libfdisk is modelled by a snapshot list of partition records, matching
the collaborator contract the code relies on.
-/

namespace Partfs

/-- Errno values the code returns (negated in C): EINVAL 22, EFBIG 27,
ENOENT 2, ENOMEM 12, EIO 5. -/
inductive Errno
| EINVAL
| EFBIG
| ENOENT
| ENOMEM
| EIO
deriving DecidableEq, Repr

/-- Results of fallible operations are compared in concrete evaluations. -/
instance {ε α : Type} [DecidableEq ε] [DecidableEq α] :
    DecidableEq (Except ε α)
  | .error a, .error b =>
      if h : a = b then .isTrue (by rw [h]) else .isFalse (by simp [h])
  | .error _, .ok _ => .isFalse (by simp)
  | .ok _, .error _ => .isFalse (by simp)
  | .ok a, .ok b =>
      if h : a = b then .isTrue (by rw [h]) else .isFalse (by simp [h])

/-- C `isspace` in the POSIX locale: space, \t, \n, \v, \f, \r.
`sscanf` skips these before a `%zu` conversion. -/
def isSpaceC (c : Char) : Bool :=
  c.toNat = 32 || c.toNat = 9 || c.toNat = 10 ||
  c.toNat = 11 || c.toNat = 12 || c.toNat = 13

/-- The decimal digit characters `'0'..'9'` (code points 48-57), the digit
class `strtoul` consumes in base 10. -/
def isDigitC (c : Char) : Bool := 48 ≤ c.toNat && c.toNat ≤ 57

/-- Value of a most-significant-digit-first run of decimal digit characters. -/
def decimalValue (ds : List Char) : Nat :=
  ds.foldl (fun a c => 10 * a + (c.toNat - 48)) 0

/-- The optional sign accepted by a `%u`-family `sscanf` conversion
(C11 7.21.6.2: "matches an optionally signed decimal integer", converted as
by `strtoul`).  Returns (negated?, chars consumed, remaining input). -/
def scanSign (s : List Char) : Bool × Nat × List Char :=
  match s with
  | [] => (false, 0, [])
  | c :: r =>
      if c = '-' then (true, 1, r)
      else if c = '+' then (false, 1, r) else (false, 0, c :: r)

/-- Model of the `%zu` conversion of `sscanf`: skip white space, then an
optional sign and at least one decimal digit; the value is reduced as a
64-bit `size_t` (a C-standard overflow is modelled as wraparound; no claim
depends on overflowing inputs).  Returns (value, chars consumed). -/
def scanZu (s : List Char) : Option (Nat × Nat) :=
  let w := s.takeWhile isSpaceC
  let s1 := s.dropWhile isSpaceC
  let p := scanSign s1
  let ds := p.2.2.takeWhile isDigitC
  if ds = [] then none
  else
    let v := decimalValue ds % 2 ^ 64
    some ((if p.1 then (2 ^ 64 - v) % 2 ^ 64 else v), w.length + p.2.1 + ds.length)

/-- The cast `(ssize_t)n` of a 64-bit `size_t` value, as gcc implements it
(two's-complement wraparound). -/
def toSsize (n : Nat) : Int :=
  if n < 2 ^ 63 then (n : Int) else (n : Int) - 2 ^ 64

/-- The characters of `PARTFS_NAME_PREFIX`, `"part_"`. -/
def partfsNameChars : List Char := ['p', 'a', 'r', 't', '_']

/-- The literal part of the scan format `"/part_"` (a leading slash then
`PARTFS_NAME_PREFIX`). -/
def slashNameChars : List Char := '/' :: partfsNameChars

/-- `__partfs_parse_path` (src/partfs.c:138-145): extract the partition
number from the path of a partition, returning -1 on error.
`sscanf(path, "/part_%zu%n", &n, &c)` must convert the number and the `%n`
count must equal `strlen(path)` (total match); the `size_t` result is cast
to `ssize_t`. -/
def __partfs_parse_path (path : List Char) : Int :=
  if path.take 6 = slashNameChars then
    match scanZu (path.drop 6) with
    | none => -1
    | some (n, used) => if 6 + used = path.length then toSsize n else -1
  else -1

/-- Worker for `natToDecimal`, structurally recursive on a fuel argument so
that it evaluates by kernel reduction; `fuel > n` suffices. -/
def natToDecimalAux : Nat → Nat → List Char
  | 0, _ => []
  | fuel + 1, n =>
      if n < 10 then [Nat.digitChar n]
      else natToDecimalAux fuel (n / 10) ++ [Nat.digitChar (n % 10)]

/-- Model of `snprintf`-style `%zu` rendering: decimal digits, most
significant first, no sign, no leading zeros (`"0"` for zero). -/
def natToDecimal (n : Nat) : List Char := natToDecimalAux (n + 1) n

/-- The name written by `snprintf(num, sizeof(num), "part_%zu", partno)` in
`partfs_readdir`, where `num` is a 16-byte buffer: at most 15 characters of
`part_<partno>` are kept (src/partfs.c:318-322). -/
def snprintf_partname (partno : Nat) : List Char :=
  (partfsNameChars ++ natToDecimal partno).take 15

/-- The fields of `struct stat` that `__partfs_stat` populates (all others
are zeroed by the `memset` and never read back by the code). -/
structure StatBuf where
  st_mode : Nat
  st_nlink : Nat
  st_uid : Nat
  st_gid : Nat
  st_size : Int
  st_atime : Int
  st_mtime : Int
  st_ctime : Int
deriving DecidableEq, Repr

/-- `__partfs_stat` (src/partfs.c:152-171): populate a stat buffer; ownership
and time stamps come from the template. -/
def __partfs_stat (mode : Nat) (nlink : Nat) (size : Int) (tmpl : StatBuf) :
    StatBuf :=
  { st_mode := mode, st_nlink := nlink,
    st_uid := tmpl.st_uid, st_gid := tmpl.st_gid,
    st_size := size,
    st_atime := tmpl.st_atime, st_mtime := tmpl.st_mtime,
    st_ctime := tmpl.st_ctime }

/-- One libfdisk partition record, per the collaborator contract the code
uses: partition number, start in sectors, and size in sectors when
`fdisk_partition_has_size` holds. -/
structure PartRecord where
  partno : Nat
  startSector : Nat
  sizeSectors : Option Nat
deriving DecidableEq, Repr

/-- `struct partfs_device`: the partition-table snapshot (libfdisk context)
and the `stat` of the device file taken at mount time. -/
structure PartfsDevice where
  table : List PartRecord
  sectorSize : Nat
  st : StatBuf
deriving DecidableEq, Repr

/-- `fdisk_get_partition(ctx, n, &pa)`: the record with partition number `n`,
absent when no such partition exists (in C, `pa` is then left NULL). -/
def fdisk_get_partition (tb : List PartRecord) (n : Nat) : Option PartRecord :=
  tb.find? (fun pa => pa.partno == n)

/-- `__fdisk_partition_get_size` (src/partfs.c:56-62): size in bytes,
`fdisk_partition_get_size(pa) * fdisk_get_sector_size(ctx)` when
`fdisk_partition_has_size(pa)`, else 0.  libfdisk's `has_size` predicate is
NULL-safe (`return pa && ...`), so an absent record also yields 0. -/
def __fdisk_partition_get_size (secsz : Nat) (pa : Option PartRecord) : Int :=
  match pa with
  | some r =>
      match r.sizeSectors with
      | some s => ((s * secsz : Nat) : Int)
      | none => 0
  | none => 0

/-- `S_IFDIR | 0755`, the mode `partfs_getattr` and `partfs_readdir` give the
root directory. -/
def rootDirMode : Nat := 0o40755

/-- `S_ISREG`: the file-type bits of a mode denote a regular file
(`(mode & S_IFMT) == S_IFREG`, with `S_IFMT = 0o170000`,
`S_IFREG = 0o100000`). -/
def S_ISREG (m : Nat) : Prop := m % 0o200000 / 0o10000 = 0o10

instance (m : Nat) : Decidable (S_ISREG m) := by
  unfold S_ISREG
  infer_instance

/-- `partfs_getattr` (src/partfs.c:244-278): stat for `"/"` is a directory
with the device file's ownership and time stamps; for any other path the
partition number is extracted and, when it is non-negative, a regular-entry
stat is synthesized from the record `fdisk_get_partition` yields (the return
value of `fdisk_get_partition` is not checked; an absent record leaves `pa`
NULL and `__fdisk_partition_get_size` then reports 0).  Only an unparsable
path returns `-ENOENT`. -/
def partfs_getattr (pdev : PartfsDevice) (path : List Char) :
    Except Errno StatBuf :=
  if path = ['/'] then
    .ok (__partfs_stat rootDirMode 2 0 pdev.st)
  else
    let n := __partfs_parse_path path
    if 0 ≤ n then
      let pa := fdisk_get_partition pdev.table n.toNat
      .ok (__partfs_stat pdev.st.st_mode 1
            (__fdisk_partition_get_size pdev.sectorSize pa) pdev.st)
    else
      .error .ENOENT

/-- One directory entry passed to the `fill` callback of `partfs_readdir`:
a name and an optional stat (NULL for `".."`). -/
structure DirEntry where
  name : List Char
  stat : Option StatBuf
deriving DecidableEq, Repr

/-- `partfs_readdir` (src/partfs.c:283-338): for `"/"`, fill `"."` (root
stat), `".."` (no stat), then one entry per partition record in table order,
named by `snprintf("part_%zu")` into a 16-byte buffer; any other path
returns `-ENOENT`. -/
def partfs_readdir (pdev : PartfsDevice) (path : List Char) :
    Except Errno (List DirEntry) :=
  if path = ['/'] then
    .ok ({ name := ['.'], stat := some (__partfs_stat rootDirMode 2 0 pdev.st) } ::
         { name := ['.', '.'], stat := none } ::
         pdev.table.map (fun pa =>
           { name := snprintf_partname pa.partno,
             stat := some (__partfs_stat pdev.st.st_mode 1
               (__fdisk_partition_get_size pdev.sectorSize (some pa)) pdev.st) }))
  else
    .error .ENOENT

/-- `struct partfs_file` minus the raw descriptor: starting offset and size
of the partition in bytes within the device file, fixed at open. -/
structure PartfsFile where
  start : Int
  size : Int
deriving DecidableEq, Repr

/-- `partfs_open` (src/partfs.c:343-382).  `mallocFail` models a failing
`malloc` (`-ENOMEM`); `sysOpenFail` models `open(2)` on the device file
failing with the given errno.  Otherwise the path is decoded (the result is
converted back to `size_t` by the `fdisk_get_partition` call) and a session
is built from the record — the code never checks whether the partition
exists, so for an absent record the C reads `fdisk_partition_get_start(NULL)`
(undefined behavior, modelled by the arbitrary value `undefStart`) and the
NULL-safe `__fdisk_partition_get_size` yields size 0; `err` is 0 either
way. -/
def partfs_open (pdev : PartfsDevice) (path : List Char)
    (mallocFail : Bool) (sysOpenFail : Option Errno) (undefStart : Int) :
    Except Errno PartfsFile :=
  if mallocFail then .error .ENOMEM
  else
    match sysOpenFail with
    | some e => .error e
    | none =>
        let n := __partfs_parse_path path
        let pa := fdisk_get_partition pdev.table (n % 2 ^ 64).toNat
        .ok { start := (pdev.sectorSize : Int) *
                (match pa with
                 | some r => (r.startSector : Int)
                 | none => undefStart),
              size := __fdisk_partition_get_size pdev.sectorSize pa }

/-- The backing store: the byte at each absolute offset of the device file. -/
abbrev Store := Int → Nat

/-- A positioned read of `n` bytes at absolute offset `pos`. -/
def storeRead (st : Store) (pos : Int) (n : Nat) : List Nat :=
  (List.range n).map (fun i : Nat => st (pos + (i : Int)))

/-- A positioned write of `data` at absolute offset `pos`. -/
def storeWrite (st : Store) (pos : Int) (data : List Nat) : Store :=
  fun i =>
    if pos ≤ i ∧ i < pos + (data.length : Int) then data.getD (i - pos).toNat 0
    else st i

/-- `partfs_lseek` (src/partfs.c:396-415): valid only for
`0 <= off <= pfi->size`; seeks the device descriptor to
`pfi->start + off` (the underlying `lseek(2)` on a regular file cannot fail
for a non-negative target, so success returns the absolute position the
following read/write uses); any other offset fails `-EINVAL`. -/
def partfs_lseek (pfi : PartfsFile) (off : Int) : Except Errno Int :=
  if 0 ≤ off ∧ off ≤ pfi.size then .ok (pfi.start + off) else .error .EINVAL

/-- `partfs_read` (src/partfs.c:420-438): seek via `partfs_lseek`
(propagating its error), then read `MIN(pfi->size - off, len)` bytes at the
absolute position.  `pfi->size - off` is non-negative here, so the C
comparison of `off_t` with `size_t` is the ordinary minimum. -/
def partfs_read (st : Store) (pfi : PartfsFile) (len : Nat) (off : Int) :
    Except Errno (List Nat) :=
  match partfs_lseek pfi off with
  | .error e => .error e
  | .ok pos => .ok (storeRead st pos (min (pfi.size - off).toNat len))

/-- `partfs_write` (src/partfs.c:443-469): seek via `partfs_lseek`; when
`off >= 0` a seek failure is reinterpreted as `-EFBIG` (offset beyond the end
of the partition), otherwise the seek error (`-EINVAL`) is returned as is;
on success `MIN(pfi->size - off, len)` bytes of `data` are written at the
absolute position and that count is returned.  The resulting store is
returned alongside so that unchanged-store facts are expressible. -/
def partfs_write (st : Store) (pfi : PartfsFile) (data : List Nat)
    (off : Int) : Except Errno Nat × Store :=
  match partfs_lseek pfi off with
  | .error e => if 0 ≤ off then (.error .EFBIG, st) else (.error e, st)
  | .ok pos =>
      let n := min (pfi.size - off).toNat data.length
      (.ok n, storeWrite st pos (data.take n))

/-! ### Helper lemmas: the decimal codec -/

theorem digitChar_toNat : ∀ d, d < 10 → (Nat.digitChar d).toNat = 48 + d := by
  decide

theorem isDigitC_digitChar : ∀ d, d < 10 → isDigitC (Nat.digitChar d) = true := by
  decide

theorem decimalValue_map_digitChar (L : List Nat) (h : ∀ d ∈ L, d < 10) :
    decimalValue ((L.map Nat.digitChar).reverse) = Nat.ofDigits 10 L := by
  unfold decimalValue
  rw [List.foldl_reverse]
  induction L with
  | nil => simp [Nat.ofDigits]
  | cons d t ih =>
      simp only [List.map_cons, List.foldr_cons, Nat.ofDigits_cons]
      rw [ih (fun x hx => h x (List.mem_cons_of_mem _ hx))]
      have hd := digitChar_toNat d (h d (List.mem_cons_self _ _))
      omega

theorem natToDecimalAux_eq_digits (fuel : Nat) : ∀ n, 0 < n → n < fuel →
    natToDecimalAux fuel n = ((Nat.digits 10 n).map Nat.digitChar).reverse := by
  induction fuel with
  | zero => omega
  | succ fuel ih =>
      intro n h0 hf
      unfold natToDecimalAux
      rw [Nat.digits_def' (by norm_num : (1 : ℕ) < 10) h0]
      by_cases hlt : n < 10
      · rw [if_pos hlt, Nat.div_eq_of_lt hlt]
        simp [Nat.mod_eq_of_lt hlt]
      · rw [if_neg hlt, ih (n / 10) (by omega) (by omega)]
        simp

theorem natToDecimal_eq_digits (n : Nat) (h : n ≠ 0) :
    natToDecimal n = ((Nat.digits 10 n).map Nat.digitChar).reverse :=
  natToDecimalAux_eq_digits (n + 1) n (Nat.pos_of_ne_zero h) (Nat.lt_succ_self n)

theorem decimalValue_natToDecimal (n : Nat) :
    decimalValue (natToDecimal n) = n := by
  by_cases h : n = 0
  · subst h
    decide
  · rw [natToDecimal_eq_digits n h,
        decimalValue_map_digitChar _
          (fun d hd => Nat.digits_lt_base (by norm_num) hd)]
    exact Nat.ofDigits_digits 10 n

theorem natToDecimal_inj {a b : Nat} (h : natToDecimal a = natToDecimal b) :
    a = b := by
  have ha := decimalValue_natToDecimal a
  have hb := decimalValue_natToDecimal b
  rw [h, hb] at ha
  exact ha.symm

theorem natToDecimal_ne_nil (n : Nat) : natToDecimal n ≠ [] := by
  by_cases h : n = 0
  · subst h
    decide
  · rw [natToDecimal_eq_digits n h]
    simp only [ne_eq, List.reverse_eq_nil_iff, List.map_eq_nil_iff]
    exact Nat.digits_ne_nil_iff_ne_zero.mpr h

theorem natToDecimal_isDigitC (n : Nat) :
    ∀ c ∈ natToDecimal n, isDigitC c = true := by
  intro c hc
  by_cases h : n = 0
  · subst h
    have h0 : natToDecimal 0 = ['0'] := by decide
    rw [h0, List.mem_singleton] at hc
    subst hc
    decide
  · rw [natToDecimal_eq_digits n h, List.mem_reverse, List.mem_map] at hc
    obtain ⟨d, hd, rfl⟩ := hc
    exact isDigitC_digitChar d (Nat.digits_lt_base (by norm_num) hd)

theorem isDigitC_not_space {c : Char} (h : isDigitC c = true) :
    isSpaceC c = false := by
  simp only [isDigitC, Bool.and_eq_true, decide_eq_true_eq] at h
  simp only [isSpaceC, Bool.or_eq_false_iff, decide_eq_false_iff_not]
  omega

theorem isDigitC_ne_minus {c : Char} (h : isDigitC c = true) : c ≠ '-' := by
  intro hc
  subst hc
  simp [isDigitC] at h

theorem isDigitC_ne_plus {c : Char} (h : isDigitC c = true) : c ≠ '+' := by
  intro hc
  subst hc
  simp [isDigitC] at h

/-- `scanZu` on a non-empty all-digit input consumes the whole input. -/
theorem scanZu_digits (ds : List Char) (h : ds ≠ [])
    (hd : ∀ c ∈ ds, isDigitC c = true) :
    scanZu ds = some (decimalValue ds % 2 ^ 64, ds.length) := by
  obtain ⟨c, t, rfl⟩ := List.exists_cons_of_ne_nil h
  have hc := hd c (List.mem_cons_self _ _)
  unfold scanZu
  rw [List.takeWhile_cons_of_neg (by simp [isDigitC_not_space hc]),
      List.dropWhile_cons_of_neg (by simp [isDigitC_not_space hc])]
  simp only [scanSign, if_neg (isDigitC_ne_minus hc), if_neg (isDigitC_ne_plus hc)]
  rw [List.takeWhile_eq_self_iff.mpr hd]
  simp

/-- Decoding the rendered decimal of `n` after the `"/part_"` literal
succeeds and recovers `n`, as long as `n` is representable as a positive
`ssize_t`. -/
theorem parse_path_encode (n : Nat) (h : n < 2 ^ 63) :
    __partfs_parse_path (slashNameChars ++ natToDecimal n) = (n : Int) := by
  have hlen : slashNameChars.length = 6 := rfl
  unfold __partfs_parse_path
  rw [← hlen, List.take_left, List.drop_left, if_pos rfl,
      scanZu_digits _ (natToDecimal_ne_nil n) (natToDecimal_isDigitC n),
      decimalValue_natToDecimal]
  rw [Nat.mod_eq_of_lt (lt_trans h (by norm_num))]
  simp [toSsize, hlen]
  omega

/-! ### Helper lemmas: the snapshot and the backing store -/

/-- On a snapshot whose partition numbers are distinct,
`fdisk_get_partition` at the number of a member record yields that record. -/
theorem fdisk_get_partition_of_mem (tb : List PartRecord) (r : PartRecord)
    (hnd : (tb.map PartRecord.partno).Nodup) (hm : r ∈ tb) :
    fdisk_get_partition tb r.partno = some r := by
  induction tb with
  | nil => cases hm
  | cons a t ih =>
      simp only [List.map_cons, List.nodup_cons] at hnd
      unfold fdisk_get_partition at ih ⊢
      by_cases hac : a.partno = r.partno
      · rcases List.mem_cons.mp hm with rfl | hmt
        · rw [List.find?_cons_of_pos _ (by simp)]
        · exact absurd (hac ▸ List.mem_map_of_mem PartRecord.partno hmt) hnd.1
      · rcases List.mem_cons.mp hm with rfl | hmt
        · exact absurd rfl hac
        · rw [List.find?_cons_of_neg _ (by simpa using hac)]
          exact ih hnd.2 hmt

theorem storeRead_length (st : Store) (pos : Int) (n : Nat) :
    (storeRead st pos n).length = n := by
  unfold storeRead
  rw [List.length_map, List.length_range]

theorem storeRead_get (st : Store) (pos : Int) (n i : Nat)
    (h : i < (storeRead st pos n).length) :
    (storeRead st pos n).get ⟨i, h⟩ = st (pos + (i : Int)) := by
  unfold storeRead
  simp

/-- Writing the empty byte string leaves the store untouched. -/
theorem storeWrite_nil (st : Store) (pos : Int) : storeWrite st pos [] = st := by
  funext i
  unfold storeWrite
  rw [if_neg]
  intro hc
  simp only [List.length_nil, Nat.cast_zero, Int.add_zero] at hc
  omega

/-- Reading back exactly the bytes just written returns them. -/
theorem storeRead_storeWrite (st : Store) (pos : Int) (data : List Nat) :
    storeRead (storeWrite st pos data) pos data.length = data := by
  apply List.ext_get
  · rw [storeRead_length]
  · intro i h1 h2
    rw [storeRead_get]
    unfold storeWrite
    rw [if_pos (by constructor <;> omega)]
    have hip : (pos + (i : Int) - pos) = (i : Int) := by ring
    rw [hip, Int.toNat_natCast]
    exact List.getD_eq_getElem data 0 h2

/-- The decimal rendering of `n < 10^10` takes at most 10 characters. -/
theorem natToDecimal_length_le (n : Nat) (h : n < 10 ^ 10) :
    (natToDecimal n).length ≤ 10 := by
  by_cases h0 : n = 0
  · subst h0
    decide
  · rw [natToDecimal_eq_digits n h0]
    simp only [List.length_reverse, List.length_map]
    rw [Nat.digits_len 10 n (by norm_num) h0]
    have := Nat.log_lt_of_lt_pow h0 h
    omega

/-- For partition numbers below `10^10` the 16-byte `snprintf` buffer does
not truncate the name. -/
theorem snprintf_partname_eq (n : Nat) (h : n < 10 ^ 10) :
    snprintf_partname n = partfsNameChars ++ natToDecimal n := by
  unfold snprintf_partname
  apply List.take_of_length_le
  have := natToDecimal_length_le n h
  simp only [List.length_append]
  have hp : partfsNameChars.length = 5 := rfl
  omega

/-! ### Helper lemmas: shape of accepted paths -/

theorem scanSign_shape (s : List Char) :
    ∃ sg, (sg = [] ∨ sg = ['+'] ∨ sg = ['-']) ∧
      s = sg ++ (scanSign s).2.2 ∧ (scanSign s).2.1 = sg.length := by
  cases s with
  | nil => exact ⟨[], Or.inl rfl, rfl, rfl⟩
  | cons c r =>
      by_cases hm : c = '-'
      · subst hm
        refine ⟨['-'], Or.inr (Or.inr rfl), ?_, ?_⟩ <;> simp [scanSign]
      · by_cases hp : c = '+'
        · subst hp
          refine ⟨['+'], Or.inr (Or.inl rfl), ?_, ?_⟩ <;> simp [scanSign]
        · refine ⟨[], Or.inl rfl, ?_, ?_⟩ <;> simp [scanSign, hm, hp]

theorem parse_path_eq_of_scanZu_some (path : List Char) (v used : Nat)
    (h6 : path.take 6 = slashNameChars)
    (hz : scanZu (path.drop 6) = some (v, used)) :
    __partfs_parse_path path =
      if 6 + used = path.length then toSsize v else -1 := by
  unfold __partfs_parse_path
  rw [if_pos h6, hz]

theorem parse_path_eq_of_scanZu_none (path : List Char)
    (h6 : path.take 6 = slashNameChars)
    (hz : scanZu (path.drop 6) = none) :
    __partfs_parse_path path = -1 := by
  unfold __partfs_parse_path
  rw [if_pos h6, hz]

/-- C6 (amended): any path the decoder accepts is exactly the `"/part_"`
literal followed by optional white space, an optional single sign, and a
non-empty run of decimal digits — with nothing trailing: the total-match
check rejects every string with trailing characters after the digits
(such as `part_0x`), but `sscanf` also admits white space and a sign
between the prefix and the digits, so acceptance is not limited to pure
prefix-plus-digits strings. -/
theorem parse_path_shape (path : List Char)
    (h : 0 ≤ __partfs_parse_path path) :
    ∃ w s ds, path = slashNameChars ++ w ++ s ++ ds ∧
      (∀ c ∈ w, isSpaceC c = true) ∧
      (s = [] ∨ s = ['+'] ∨ s = ['-']) ∧
      ds ≠ [] ∧ (∀ c ∈ ds, isDigitC c = true) := by
  by_cases h6 : path.take 6 = slashNameChars
  case neg =>
    unfold __partfs_parse_path at h
    rw [if_neg h6] at h
    exact absurd h (by norm_num)
  case pos =>
    cases hz : scanZu (path.drop 6) with
    | none => rw [parse_path_eq_of_scanZu_none path h6 hz] at h; exact absurd h (by norm_num)
    | some p =>
        obtain ⟨v, used⟩ := p
        rw [parse_path_eq_of_scanZu_some path v used h6 hz] at h
        by_cases hlen : 6 + used = path.length
        case neg => rw [if_neg hlen] at h; exact absurd h (by norm_num)
        case pos =>
          unfold scanZu at hz
          simp only [] at hz
          split at hz
          case isTrue => exact absurd hz (by simp)
          case isFalse hds =>
            simp only [Option.some.injEq, Prod.mk.injEq] at hz
            obtain ⟨hv, hu⟩ := hz
            obtain ⟨sg, hsg, hs1, hsgl⟩ := scanSign_shape (List.dropWhile isSpaceC (path.drop 6))
            refine ⟨(path.drop 6).takeWhile isSpaceC, sg,
                    ((scanSign ((path.drop 6).dropWhile isSpaceC)).2.2).takeWhile isDigitC,
                    ?_, ?_, hsg, hds, ?_⟩
            · have hsplit : path = path.take 6 ++ path.drop 6 :=
                (List.take_append_drop 6 path).symm
              have hlen6 : (path.take 6).length = 6 := by rw [h6]; rfl
              have hplen : path.length = 6 + (path.drop 6).length := by
                conv_lhs => rw [hsplit]
                rw [List.length_append, hlen6]
              have hrest : (path.drop 6) =
                  (path.drop 6).takeWhile isSpaceC ++
                  (path.drop 6).dropWhile isSpaceC :=
                (List.takeWhile_append_dropWhile isSpaceC (path.drop 6)).symm
              have hs2 : (scanSign ((path.drop 6).dropWhile isSpaceC)).2.2 =
                  ((scanSign ((path.drop 6).dropWhile isSpaceC)).2.2).takeWhile isDigitC ++
                  ((scanSign ((path.drop 6).dropWhile isSpaceC)).2.2).dropWhile isDigitC :=
                (List.takeWhile_append_dropWhile isDigitC _).symm
              -- length bookkeeping forces the dropWhile tail to be empty
              have htail : ((scanSign ((path.drop 6).dropWhile isSpaceC)).2.2).dropWhile isDigitC = [] := by
                have e1 : (path.drop 6).length =
                    ((path.drop 6).takeWhile isSpaceC).length +
                    (((path.drop 6).dropWhile isSpaceC)).length := by
                  conv_lhs => rw [hrest]
                  rw [List.length_append]
                have e2 : (((path.drop 6).dropWhile isSpaceC)).length =
                    sg.length + ((scanSign ((path.drop 6).dropWhile isSpaceC)).2.2).length := by
                  conv_lhs => rw [hs1]
                  rw [List.length_append]
                have e3 : ((scanSign ((path.drop 6).dropWhile isSpaceC)).2.2).length =
                    (((scanSign ((path.drop 6).dropWhile isSpaceC)).2.2).takeWhile isDigitC).length +
                    (((scanSign ((path.drop 6).dropWhile isSpaceC)).2.2).dropWhile isDigitC).length := by
                  conv_lhs => rw [hs2]
                  rw [List.length_append]
                have := hu ▸ hlen
                apply List.eq_nil_of_length_eq_zero
                omega
              conv_lhs => rw [hsplit, h6, hrest]
              conv_lhs => rw [hs1]
              conv_lhs => rw [hs2, htail]
              simp [hsgl, List.append_assoc]
            · intro c hc
              exact List.mem_takeWhile_imp hc
            · intro c hc
              exact List.mem_takeWhile_imp hc

/-! ### Concrete fixtures (the spec's worked scenario, and a small session) -/

/-- Stat template of a backing image file: regular file mode `0o100644`,
uid/gid 1000, 4 MiB, arbitrary time stamps. -/
def tmplStat : StatBuf :=
  { st_mode := 0o100644, st_nlink := 1, st_uid := 1000, st_gid := 1000,
    st_size := 4194304, st_atime := 11, st_mtime := 22, st_ctime := 33 }

/-- The spec's concrete scenario: sector size 512, one partition numbered 0
starting at sector 2048 with 6144 sectors (3 145 728 bytes). -/
def demoDevice : PartfsDevice :=
  { table := [{ partno := 0, startSector := 2048, sizeSectors := some 6144 }],
    sectorSize := 512, st := tmplStat }

/-- An all-zero backing store. -/
def zeroStore : Store := fun _ => 0

/-- A small open session: partition bytes 1024..1039 of the device file. -/
def smallFile : PartfsFile := { start := 1024, size := 16 }

/-! ### Claims C1, C2, C4, C10: the I/O translator -/

/-- C1: for an open session of size `S`, a read at `offset ∈ [0, S]` seeks to
`start + offset` and reads exactly `min(S - offset, length)` bytes from the
backing store, returning them; a read at `offset > S` fails `-EINVAL` (for
every store, i.e. without touching the backing store). -/
theorem partfs_read_bounds_clamp (st : Store) (pfi : PartfsFile) (len : Nat)
    (off : Int) :
    (0 ≤ off ∧ off ≤ pfi.size →
      partfs_read st pfi len off =
        .ok (storeRead st (pfi.start + off) (min (pfi.size - off).toNat len)) ∧
      (storeRead st (pfi.start + off) (min (pfi.size - off).toNat len)).length =
        min (pfi.size - off).toNat len) ∧
    (pfi.size < off → partfs_read st pfi len off = .error .EINVAL) := by
  constructor
  · intro hoff
    constructor
    · unfold partfs_read partfs_lseek
      rw [if_pos hoff]
    · exact storeRead_length st (pfi.start + off) (min (pfi.size - off).toNat len)
  · intro hgt
    unfold partfs_read partfs_lseek
    rw [if_neg (by omega)]

theorem partfs_read_bounds_clamp_witness :
    (partfs_read zeroStore smallFile 100 3 =
      .ok (storeRead zeroStore (smallFile.start + 3)
        (min (smallFile.size - 3).toNat 100))) ∧
    partfs_read zeroStore smallFile 100 17 = .error .EINVAL :=
  ⟨((partfs_read_bounds_clamp zeroStore smallFile 100 3).1 (by decide)).1,
   (partfs_read_bounds_clamp zeroStore smallFile 100 17).2 (by decide)⟩

/-- C2: for an open session of size `S` (`S ≥ 0`): a write at `offset = S`
succeeds with 0 bytes written (and an unchanged store); a write at
`offset > S` fails `-EFBIG`; a write at `offset < 0` fails `-EINVAL`; and a
write at `offset ∈ [0, S)` writes `min(S - offset, length)` bytes at
`start + offset` and returns that count. -/
theorem partfs_write_boundaries (st : Store) (pfi : PartfsFile)
    (data : List Nat) (off : Int) (hsz : 0 ≤ pfi.size) :
    (off = pfi.size → partfs_write st pfi data off = (.ok 0, st)) ∧
    (pfi.size < off → partfs_write st pfi data off = (.error .EFBIG, st)) ∧
    (off < 0 → partfs_write st pfi data off = (.error .EINVAL, st)) ∧
    (0 ≤ off → off < pfi.size →
      partfs_write st pfi data off =
        (.ok (min (pfi.size - off).toNat data.length),
         storeWrite st (pfi.start + off)
           (data.take (min (pfi.size - off).toNat data.length)))) := by
  refine ⟨?_, ?_, ?_, ?_⟩
  · intro h
    subst h
    unfold partfs_write partfs_lseek
    rw [if_pos ⟨hsz, le_refl _⟩]
    rw [show pfi.size - pfi.size = (0 : Int) by ring]
    simp [storeWrite_nil]
  · intro hgt
    have hls : partfs_lseek pfi off = .error .EINVAL := by
      unfold partfs_lseek
      rw [if_neg (by omega)]
    unfold partfs_write
    rw [hls]
    dsimp only
    rw [if_pos (by omega)]
  · intro hlt
    have hls : partfs_lseek pfi off = .error .EINVAL := by
      unfold partfs_lseek
      rw [if_neg (by omega)]
    unfold partfs_write
    rw [hls]
    dsimp only
    rw [if_neg (by omega)]
  · intro h0 hlt
    unfold partfs_write partfs_lseek
    rw [if_pos ⟨h0, by omega⟩]

theorem partfs_write_boundaries_witness :
    partfs_write zeroStore smallFile [9, 9] 16 = (.ok 0, zeroStore) ∧
    partfs_write zeroStore smallFile [9, 9] 17 = (.error .EFBIG, zeroStore) ∧
    partfs_write zeroStore smallFile [9, 9] (-1) = (.error .EINVAL, zeroStore) ∧
    partfs_write zeroStore smallFile [9, 9] 3 =
      (.ok (min ((smallFile.size - 3).toNat) 2),
       storeWrite zeroStore (smallFile.start + 3)
         ([9, 9].take (min ((smallFile.size - 3).toNat) 2))) :=
  ⟨(partfs_write_boundaries zeroStore smallFile [9, 9] 16 (by decide)).1 (by decide),
   (partfs_write_boundaries zeroStore smallFile [9, 9] 17 (by decide)).2.1 (by decide),
   (partfs_write_boundaries zeroStore smallFile [9, 9] (-1) (by decide)).2.2.1 (by decide),
   (partfs_write_boundaries zeroStore smallFile [9, 9] 3 (by decide)).2.2.2
     (by decide) (by decide)⟩

/-- C4: round-trip — writing `data` at offset `o` with `o ≥ 0` and
`o + len(data) ≤ S` reports `len(data)` bytes written, and reading
`len(data)` bytes back at `o` returns exactly `data`. -/
theorem partfs_write_read_roundtrip (st : Store) (pfi : PartfsFile)
    (data : List Nat) (off : Int) (h0 : 0 ≤ off)
    (hfit : off + (data.length : Int) ≤ pfi.size) :
    (partfs_write st pfi data off).1 = .ok data.length ∧
    partfs_read (partfs_write st pfi data off).2 pfi data.length off =
      .ok data := by
  have hoff : off ≤ pfi.size := by omega
  have hmin : min (pfi.size - off).toNat data.length = data.length := by omega
  have hw : partfs_write st pfi data off =
      (.ok data.length, storeWrite st (pfi.start + off) data) := by
    unfold partfs_write partfs_lseek
    rw [if_pos ⟨h0, hoff⟩]
    dsimp only
    rw [hmin, List.take_length]
  rw [hw]
  refine ⟨rfl, ?_⟩
  unfold partfs_read partfs_lseek
  rw [if_pos ⟨h0, hoff⟩]
  dsimp only
  rw [hmin, storeRead_storeWrite]

theorem partfs_write_read_roundtrip_witness :
    (partfs_write zeroStore smallFile [3, 1, 4] 5).1 = .ok 3 ∧
    partfs_read (partfs_write zeroStore smallFile [3, 1, 4] 5).2 smallFile 3 5 =
      .ok [3, 1, 4] :=
  partfs_write_read_roundtrip zeroStore smallFile [3, 1, 4] 5 (by decide)
    (by decide)

/-- C10: error atomicity — a write that fails (`-EINVAL` or `-EFBIG`) leaves
the backing store exactly as it was. -/
theorem partfs_write_error_atomic (st : Store) (pfi : PartfsFile)
    (data : List Nat) (off : Int) (e : Errno)
    (h : (partfs_write st pfi data off).1 = .error e) :
    (partfs_write st pfi data off).2 = st := by
  unfold partfs_write at h ⊢
  cases hls : partfs_lseek pfi off with
  | error e2 => by_cases h0 : 0 ≤ off <;> simp [h0]
  | ok pos =>
      rw [hls] at h
      simp at h

theorem partfs_write_error_atomic_witness :
    (partfs_write zeroStore smallFile [7] (-2)).2 = zeroStore :=
  partfs_write_error_atomic zeroStore smallFile [7] (-2) .EINVAL (by rfl)

/-! ### Claims C3, C5: lookup/open on nonexistent partitions -/

/-- C3 (code bug evidence): on a table whose only partition is number 0,
`getattr("/part_7")` — a syntactically valid name for a nonexistent
partition — returns success with a zero-size entry copied from the template,
instead of the `-ENOENT` the spec requires: the code never checks the result
of `fdisk_get_partition`, and the NULL record makes
`__fdisk_partition_get_size` report 0. -/
theorem partfs_getattr_phantom_success :
    partfs_getattr demoDevice ("/part_7".data) =
      .ok { st_mode := 0o100644, st_nlink := 1, st_uid := 1000,
            st_gid := 1000, st_size := 0, st_atime := 11, st_mtime := 22,
            st_ctime := 33 } := by
  decide

/-- C5 (code bug evidence): on the same table, `open("/part_7")` with
`malloc` and the device `open(2)` both succeeding returns success (err = 0)
and builds a session from the NULL record (size 0; start from the undefined
`fdisk_partition_get_start(NULL)` read, here instantiated to 0) — it never
fails with `-ENOENT` as the spec requires, since `partfs_open` inspects
neither the parse result nor the `fdisk_get_partition` result. -/
theorem partfs_open_ignores_missing_record :
    partfs_open demoDevice ("/part_7".data) false none 0 =
      .ok { start := 0, size := 0 } := by
  decide

/-! ### Claims C6, C7: the name codec -/

/-- The well-formed-name predicate of the spec: the whole string is the
`"/part_"` literal followed immediately by one or more decimal digits. -/
def slashNameDigits (p : List Char) : Bool :=
  decide (p.take 6 = slashNameChars) && decide (6 < p.length) &&
    (p.drop 6).all isDigitC

/-- C6 counterexample: `"/part_+7"` is not of the form `part_` + digits, yet
the decoder accepts it (yielding 7) — `sscanf`'s `%zu` conversion admits an
optional sign. -/
theorem parse_path_accepts_sign :
    __partfs_parse_path ("/part_+7".data) = 7 ∧
    slashNameDigits ("/part_+7".data) = false := by
  decide

theorem parse_path_shape_witness :
    0 ≤ __partfs_parse_path ("/part_5".data) ∧
    (∃ w s ds, "/part_5".data = slashNameChars ++ w ++ s ++ ds ∧
      (∀ c ∈ w, isSpaceC c = true) ∧
      (s = [] ∨ s = ['+'] ∨ s = ['-']) ∧
      ds ≠ [] ∧ (∀ c ∈ ds, isDigitC c = true)) :=
  ⟨by decide, parse_path_shape ("/part_5".data) (by decide)⟩

/-- C7 counterexample: `"/part_007"` carries leading zeros, which the claim
says must be rejected, yet the decoder accepts it and yields partition 7
(it is not the canonical rendering of 7). -/
theorem parse_path_accepts_leading_zeros :
    __partfs_parse_path ("/part_007".data) = 7 ∧
    "/part_007".data ≠ slashNameChars ++ natToDecimal 7 := by
  decide

/-- C7 (amended): every canonical name — `part_` followed by the decimal
rendering of `N` with no leading zeros, sign or other characters — is
accepted by the decoder and decodes to `N` (for `N` representable as a
positive `ssize_t`); the counterexample above shows canonical names are not
the ONLY accepted ones. -/
theorem parse_path_canonical_roundtrip (n : Nat) (h : n < 2 ^ 63) :
    __partfs_parse_path (slashNameChars ++ natToDecimal n) = (n : Int) :=
  parse_path_encode n h

theorem parse_path_canonical_roundtrip_witness :
    (42 : Nat) < 2 ^ 63 ∧
    __partfs_parse_path (slashNameChars ++ natToDecimal 42) = (42 : Int) :=
  ⟨by norm_num, parse_path_canonical_roundtrip 42 (by norm_num)⟩

/-! ### Claims C8, C9: metadata and directory listing -/

/-- C8: for every partition number present in the snapshot (numbers
distinct and `ssize_t`-representable, backing template a regular file),
`getattr` on the canonical name `part_<N>` succeeds with a regular-file
entry whose size is the partition's byte size (sectors × sector size, 0
when the parser reports no size), link count 1, and uid/gid/time stamps
copied from the backing-store template. -/
theorem partfs_getattr_existing_partition (pdev : PartfsDevice)
    (r : PartRecord) (hmem : r ∈ pdev.table)
    (hnd : (pdev.table.map PartRecord.partno).Nodup)
    (hno : r.partno < 2 ^ 63) (hreg : S_ISREG pdev.st.st_mode) :
    ∃ stbuf,
      partfs_getattr pdev (slashNameChars ++ natToDecimal r.partno) =
        .ok stbuf ∧
      S_ISREG stbuf.st_mode ∧ stbuf.st_nlink = 1 ∧
      stbuf.st_size = (match r.sizeSectors with
                       | some s => ((s * pdev.sectorSize : Nat) : Int)
                       | none => 0) ∧
      stbuf.st_uid = pdev.st.st_uid ∧ stbuf.st_gid = pdev.st.st_gid ∧
      stbuf.st_atime = pdev.st.st_atime ∧
      stbuf.st_mtime = pdev.st.st_mtime ∧
      stbuf.st_ctime = pdev.st.st_ctime := by
  have hroot : ¬ slashNameChars ++ natToDecimal r.partno = ['/'] := by
    intro he
    have hlen := congrArg List.length he
    rw [List.length_append] at hlen
    have h6 : slashNameChars.length = 6 := rfl
    have h1 : (['/'] : List Char).length = 1 := rfl
    omega
  unfold partfs_getattr
  rw [if_neg hroot, parse_path_encode r.partno hno,
      if_pos (Int.natCast_nonneg r.partno), Int.toNat_natCast,
      fdisk_get_partition_of_mem pdev.table r hnd hmem]
  exact ⟨_, rfl, hreg, rfl, rfl, rfl, rfl, rfl, rfl, rfl⟩

theorem partfs_getattr_existing_partition_witness :
    ∃ stbuf,
      partfs_getattr demoDevice (slashNameChars ++ natToDecimal 0) =
        .ok stbuf ∧
      S_ISREG stbuf.st_mode ∧ stbuf.st_nlink = 1 ∧
      stbuf.st_size = ((6144 * 512 : Nat) : Int) ∧
      stbuf.st_uid = demoDevice.st.st_uid ∧
      stbuf.st_gid = demoDevice.st.st_gid ∧
      stbuf.st_atime = demoDevice.st.st_atime ∧
      stbuf.st_mtime = demoDevice.st.st_mtime ∧
      stbuf.st_ctime = demoDevice.st.st_ctime :=
  partfs_getattr_existing_partition demoDevice
    { partno := 0, startSector := 2048, sizeSectors := some 6144 }
    (by decide) (by decide) (by decide) (by decide)

/-- C9: listing the root yields `.` and `..` first, then exactly one entry
per partition record, named by the codec, in snapshot order, with no name
duplicated or omitted (under the snapshot invariant that partition numbers
are distinct, and small enough for the 16-byte name buffer); the listing is
a pure function of the snapshot, hence identical on every call. -/
theorem partfs_readdir_root_listing (pdev : PartfsDevice)
    (hnd : (pdev.table.map PartRecord.partno).Nodup)
    (hsmall : ∀ pa ∈ pdev.table, pa.partno < 10 ^ 10) :
    ∃ es, partfs_readdir pdev ['/'] = .ok es ∧
      es.map DirEntry.name =
        ['.'] :: ['.', '.'] ::
          pdev.table.map (fun pa => partfsNameChars ++ natToDecimal pa.partno) ∧
      (es.map DirEntry.name).Nodup := by
  have hmap : (pdev.table.map (fun pa =>
      ({ name := snprintf_partname pa.partno,
         stat := some (__partfs_stat pdev.st.st_mode 1
           (__fdisk_partition_get_size pdev.sectorSize (some pa)) pdev.st) } :
        DirEntry))).map DirEntry.name =
      pdev.table.map (fun pa => partfsNameChars ++ natToDecimal pa.partno) := by
    rw [List.map_map]
    apply List.map_congr_left
    intro pa hpa
    exact snprintf_partname_eq pa.partno (hsmall pa hpa)
  have hname_len : ∀ pa ∈ pdev.table,
      (partfsNameChars ++ natToDecimal pa.partno).length ≥ 6 := by
    intro pa _
    rw [List.length_append]
    have h5 : partfsNameChars.length = 5 := rfl
    have hpos : 0 < (natToDecimal pa.partno).length :=
      List.length_pos.mpr (natToDecimal_ne_nil pa.partno)
    omega
  have hnodup : (['.'] :: ['.', '.'] ::
      pdev.table.map
        (fun pa => partfsNameChars ++ natToDecimal pa.partno)).Nodup := by
    simp only [List.nodup_cons, List.mem_cons, List.mem_map]
    refine ⟨?_, ?_, ?_⟩
    · rintro (h | ⟨pa, hpa, hname⟩)
      · simp at h
      · have := congrArg List.length hname
        have := hname_len pa hpa
        simp_all
    · rintro ⟨pa, hpa, hname⟩
      have := congrArg List.length hname
      have := hname_len pa hpa
      simp_all
    · have hcomp : pdev.table.map
          (fun pa => partfsNameChars ++ natToDecimal pa.partno) =
          (pdev.table.map PartRecord.partno).map
            (fun m => partfsNameChars ++ natToDecimal m) := by
        rw [List.map_map]
        rfl
      rw [hcomp]
      refine List.Nodup.map ?_ hnd
      intro a b hab
      exact natToDecimal_inj (List.append_cancel_left hab)
  unfold partfs_readdir
  rw [if_pos rfl]
  refine ⟨_, rfl, ?_, ?_⟩ <;>
    simp only [List.map_cons, hmap]
  exact hnodup

theorem partfs_readdir_root_listing_witness :
    ∃ es, partfs_readdir demoDevice ['/'] = .ok es ∧
      es.map DirEntry.name =
        ['.'] :: ['.', '.'] ::
          demoDevice.table.map
            (fun pa => partfsNameChars ++ natToDecimal pa.partno) ∧
      (es.map DirEntry.name).Nodup :=
  partfs_readdir_root_listing demoDevice (by decide) (by decide)

end Partfs
